import Mathlib

/-!
Verification of the research-aggregation core of the `ama-autism-pt-br`
repository against its natural-language specification.

The Python sources are shallowly embedded:
* `src/models/paper.py` → the `Paper` structure (floats become `ℚ`; no
  floating-point arithmetic is performed on scores, only comparisons of
  literal constants, so rationals are a faithful model);
* `src/services/research_fetcher.py` → scoring, filtering, normalization,
  merge/dedup/truncate, the rate-limit gate and the memoization cache.
  Network I/O is modelled by quantifying over the raw provider records
  (respectively over an `Except`-valued provider outcome for the
  exception-handling claims);
* `src/services/model_handler.py` → the four agent stages become
  `Except`-valued black-box functions and `generate_answer` their
  composition with the fallback string.

Python strings are modelled as Lean `String`s; `s.lower()` is modelled as
a character-wise `Char.toLower` map (exact for the ASCII vocabulary used
by the code) and `term in text` as substring occurrence over the
character list.
-/

/-- Python's substring test `term in text`, executably, over character
lists: true iff `term` occurs contiguously inside `text`. -/
def hasSub (text term : List Char) : Bool :=
  match text with
  | [] => term.isEmpty
  | _ :: rest => term.isPrefixOf text || hasSub rest term

/-- Propositional meaning of substring containment: `term` occurs
contiguously inside `text`. -/
def occursIn (term text : List Char) : Prop :=
  ∃ s e, s ++ term ++ e = text

/-- Python's `s.lower()`, character-wise (exact on ASCII). -/
def lowerData (s : String) : List Char :=
  s.data.map Char.toLower

/-- Python's `s.lower()` returned as a string (used for dedup keys). -/
def lowerStr (s : String) : String :=
  ⟨lowerData s⟩

/-- Python's slice `s[:n]` (by code points). -/
def pySlice (s : String) (n : Nat) : String :=
  ⟨s.data.take n⟩

/-- `src/models/paper.py`: the `Paper` dataclass. `relevance_score` is a
rational standing for the Python float. -/
structure Paper where
  title : String
  abstract : String
  url : String
  publication_date : String
  relevance_score : ℚ
  source : String
  authors : Option String := none
deriving Repr, DecidableEq

/-- `research_fetcher.py` line 82: the `autism_terms` set of
`is_autism_related` (a Python set; `any` over it is order-independent). -/
def autism_terms : List String :=
  ["autism", "autistic", "asd", "autism spectrum disorder",
   "asperger", "neurodevelopmental", "neurodivergent"]

/-- `research_fetcher.py` lines 80–91: `is_autism_related`. -/
def is_autism_related (title abstract : String) : Bool :=
  let text := lowerData (title ++ " " ++ abstract)
  autism_terms.any (fun term => hasSub text term.data)

/-- `research_fetcher.py` lines 93–98: `filter_papers`. -/
def filter_papers (papers : List Paper) : List Paper :=
  papers.filter (fun paper => is_autism_related paper.title paper.abstract)

/-- The Python float literal `0.9` as an exact rational. The weight
literals are written in reduced `num/den` constructor form because `(/)`
on `ℚ` does not reduce in the kernel; `w09_eq` and friends relate them to
`(/)` for readable statements. -/
def w09 : ℚ := ⟨9, 10, by decide, by decide⟩

/-- The Python float literal `0.8` as an exact rational. -/
def w08 : ℚ := ⟨4, 5, by decide, by decide⟩

/-- The Python float literal `0.7` as an exact rational. -/
def w07 : ℚ := ⟨7, 10, by decide, by decide⟩

/-- The Python float literal `0.5` as an exact rational. -/
def half : ℚ := ⟨1, 2, by decide, by decide⟩

/-- `research_fetcher.py` lines 103–111: the `autism_terms` weight dict of
`calculate_relevance_score`, in insertion (= iteration) order. -/
def autismTermWeights : List (String × ℚ) :=
  [("autism", 1), ("autistic", w09), ("asd", w09),
   ("autism spectrum disorder", 1), ("asperger", w08),
   ("neurodevelopmental", w07), ("neurodivergent", w07)]

/-- `research_fetcher.py` lines 100–119: `calculate_relevance_score`.
The loop keeps `score = max(score, weight)` for each present term and the
final line returns `score if score > 0 else 0.5`. -/
def calculate_relevance_score (title abstract : String) : ℚ :=
  let text := lowerData (title ++ " " ++ abstract)
  let score := autismTermWeights.foldl
    (fun score tw => if hasSub text tw.1.data then max score tw.2 else score) 0
  if 0 < score then score else half

/-- One raw arXiv API result as consumed by `fetch_arxiv_papers`
(`research_fetcher.py` lines 136–148): the `arxiv` library always
supplies these fields. -/
structure ArxivResult where
  title : String
  summary : String
  pdf_url : String
  published : String
  authorNames : List String
deriving Repr, DecidableEq

/-- `research_fetcher.py` lines 137–147: the `Paper` built from one arXiv
result. -/
def arxiv_paper (r : ArxivResult) : Paper :=
  { title := r.title
    abstract := r.summary
    url := r.pdf_url
    publication_date := r.published
    authors := some (String.intercalate ", " r.authorNames)
    source := "arXiv"
    relevance_score := calculate_relevance_score r.title r.summary }

/-- `research_fetcher.py` lines 121–152, success path of
`fetch_arxiv_papers`: normalize every raw result, then filter for autism
relevance. The network call is modelled by quantifying over the raw
result list. -/
def fetch_arxiv_papers (results : List ArxivResult) : List Paper :=
  filter_papers (results.map arxiv_paper)

/-- One raw Medline record as consumed by `fetch_pubmed_papers`
(`research_fetcher.py` lines 187–201). Every field the code reads with
`record.get` can be absent; `AU` is the author list. -/
structure MedlineRecord where
  TI : Option String
  AB : Option String
  PMID : Option String
  DP : Option String
  AU : Option (List String)
deriving Repr, DecidableEq

/-- `research_fetcher.py` lines 190–200: the `Paper` built from one
Medline record, with the code's fallback strings for absent fields.
`authors` is `record.get("AU", ["Unknown"])[0] if record.get("AU") else
"Unknown"`: `"Unknown"` when `AU` is absent or the empty list. -/
def pubmed_paper (r : MedlineRecord) : Paper :=
  let title := r.TI.getD "No title available"
  let abstract := r.AB.getD "No abstract available"
  { title := title
    abstract := abstract
    url := "https://pubmed.ncbi.nlm.nih.gov/" ++ r.PMID.getD "" ++ "/"
    publication_date := r.DP.getD "Date not available"
    authors := some (match r.AU with | some (a :: _) => a | _ => "Unknown")
    source := "PubMed"
    relevance_score := calculate_relevance_score title abstract }

/-- `research_fetcher.py` lines 187–201: the record loop of
`fetch_pubmed_papers`. Line 189 (`if "AB" in record`) keeps only records
that have an abstract; the others are skipped, not normalized. -/
def pubmed_collect (records : List MedlineRecord) : List Paper :=
  (records.filter (fun r => r.AB.isSome)).map pubmed_paper

/-- `research_fetcher.py` lines 158–209, success path of
`fetch_pubmed_papers`: collect records with abstracts, then filter for
autism relevance. -/
def fetch_pubmed_papers (records : List MedlineRecord) : List Paper :=
  filter_papers (pubmed_collect records)

/-- The `bib` dict of one raw Google Scholar result
(`research_fetcher.py` lines 246–255). Each field the code reads with
`bib.get` can be absent. The `author` value is modelled after the
code's "ensure authors is a list" step. -/
structure ScholarBib where
  title : Option String
  abstract : Option String
  pub_year : Option String
  author : Option (List String)
deriving Repr, DecidableEq

/-- One raw Google Scholar result (`research_fetcher.py` lines 235–249).
`bib := none` models the skipped malformed records: a result that is not
a dict, has no `bib` key, or whose `bib` is not a dict. -/
structure ScholarResult where
  bib : Option ScholarBib
  pub_url : Option String
deriving Repr, DecidableEq

/-- `research_fetcher.py` lines 251–270: the `Paper` built from one
valid Scholar result. Title and abstract are truncated (`title[:500]`,
`abstract[:2000]`) in the stored `Paper`, while `relevance_score` is
computed from the untruncated strings (line 269). -/
def scholar_paper (r : ScholarResult) (bib : ScholarBib) : Paper :=
  let title := bib.title.getD "No title available"
  let abstract := bib.abstract.getD "No abstract available"
  { title := pySlice title 500
    abstract := pySlice abstract 2000
    url := r.pub_url.getD ""
    publication_date := bib.pub_year.getD "Year not available"
    authors := some (match bib.author with | some (a :: _) => a | _ => "Unknown")
    source := "Google Scholar"
    relevance_score := calculate_relevance_score title abstract }

/-- `research_fetcher.py` lines 229–277: the result loop of
`fetch_scholar_papers`. Malformed records (`bib := none`) are skipped and
processing continues. -/
def scholar_collect (results : List ScholarResult) : List Paper :=
  results.filterMap (fun r => r.bib.map (scholar_paper r))

/-- `research_fetcher.py` lines 211–288, success path of
`fetch_scholar_papers`: collect valid results, then filter for autism
relevance. -/
def fetch_scholar_papers (results : List ScholarResult) : List Paper :=
  filter_papers (scholar_collect results)

/-- `fetch_arxiv_papers` with its `try/except` wrapper
(`research_fetcher.py` lines 124 and 154–156): a provider failure is an
`Except.error` and yields `[]`; the function itself is total — it never
propagates an exception. -/
def fetch_arxiv (outcome : Except String (List ArxivResult)) : List Paper :=
  match outcome with
  | .ok results => fetch_arxiv_papers results
  | .error _ => []

/-- `fetch_pubmed_papers` with its `try/except` wrapper
(`research_fetcher.py` lines 161 and 207–209). -/
def fetch_pubmed (outcome : Except String (List MedlineRecord)) : List Paper :=
  match outcome with
  | .ok records => fetch_pubmed_papers records
  | .error _ => []

/-- `fetch_scholar_papers` with its `try/except` wrappers
(`research_fetcher.py` lines 213, 279–280 and 286–288). -/
def fetch_scholar (outcome : Except String (List ScholarResult)) : List Paper :=
  match outcome with
  | .ok results => fetch_scholar_papers results
  | .error _ => []

/-- `research_fetcher.py` line 315: the sort key is `relevance_score`
and `reverse=True`; Python's `sorted` is stable, so the specification of
the sort is: non-increasing `relevance_score`, equal scores kept in
original order. `insertDesc` inserts an element (that originally came
before every element of the already-sorted suffix) in front of the first
element whose score is not larger. -/
def insertDesc (p : Paper) : List Paper → List Paper
  | [] => [p]
  | q :: qs =>
    if q.relevance_score ≤ p.relevance_score then p :: q :: qs
    else q :: insertDesc p qs

/-- Stable descending-by-score sort: the semantics of
`sorted(all_papers, key=lambda x: x.relevance_score, reverse=True)`
(`research_fetcher.py` line 315). -/
def sortDesc : List Paper → List Paper
  | [] => []
  | p :: ps => insertDesc p (sortDesc ps)

/-- `research_fetcher.py` lines 312–319: the dedup loop. `seen` is the
`seen_titles` set of lower-cased titles already kept. -/
def dedupAux (seen : List String) : List Paper → List Paper
  | [] => []
  | p :: ps =>
    if lowerStr p.title ∈ seen then dedupAux seen ps
    else p :: dedupAux (lowerStr p.title :: seen) ps

/-- `research_fetcher.py` lines 311–319: `unique_papers`, the sorted and
deduplicated candidate list of `fetch_all_papers` (before the final
truncation of line 321). The candidate list `all_papers` — the
concatenation, in completion order, of the three sources' results — is
the function's argument. -/
def sort_and_dedup (all_papers : List Paper) : List Paper :=
  dedupAux [] (sortDesc all_papers)

/-- `research_fetcher.py` lines 290–321: `fetch_all_papers` as a function
of the collected candidate list: sort, deduplicate, truncate to 10. -/
def fetch_all_papers (all_papers : List Paper) : List Paper :=
  (sort_and_dedup all_papers).take 10

/-- `research_fetcher.py` lines 17 and 121/158: `CACHE_SIZE`. -/
def CACHE_SIZE : Nat := 128

/-- The `functools.lru_cache(maxsize=CACHE_SIZE)` on `fetch_arxiv_papers`
(`research_fetcher.py` line 121), as an explicit bounded
most-recently-used-first association list. `cached_fetch f cache q`
returns the result list, the new cache state, and whether a provider
(network) call was made: a hit moves the entry to the front and makes no
call; a miss computes `f q`, inserts it at the front and drops the
least-recently-used entry when the bound is exceeded. -/
def cached_fetch (f : String → List Paper)
    (cache : List (String × List Paper)) (q : String) :
    List Paper × List (String × List Paper) × Bool :=
  match cache.find? (fun e => e.1 == q) with
  | some e => (e.2, (q, e.2) :: cache.eraseP (fun e' => e'.1 == q), false)
  | none => (f q, ((q, f q) :: cache).take CACHE_SIZE, true)

/-- `research_fetcher.py` line 30: `_min_request_interval = 2.0`. -/
def min_request_interval : ℚ := 2

/-- `research_fetcher.py` lines 53–59: `_wait_for_rate_limit`, modelled
over an idealized clock (times are rationals, `time.sleep` sleeps
exactly). Given the stored `_last_request_time` and the current time, it
returns the time at which the provider request is issued — which the
code also stores as the new `_last_request_time`: if less than
`_min_request_interval` has elapsed it sleeps for the remainder, so the
request goes out exactly at `last + _min_request_interval`; otherwise it
goes out immediately. Within the repository this method is called only
by `_make_request_with_retry` (line 65), which itself is never called;
the only live occurrence of the gate is its inline copy in
`fetch_scholar_papers` (lines 218–222). -/
def wait_for_rate_limit (last now : ℚ) : ℚ :=
  if now - last < min_request_interval then last + min_request_interval
  else now

/-- The request-issuing behavior of one `fetch_pubmed_papers` call
(`research_fetcher.py` lines 158–209) over the idealized clock: given
the stored `_last_request_time` and the time the call starts, it returns
(time the PubMed provider request is issued, `_last_request_time`
afterwards). The body calls `Entrez.esearch`/`Entrez.efetch` directly:
it contains no call to `_wait_for_rate_limit` or
`_make_request_with_retry`, no `time.sleep`, and no read or write of
`_last_request_time`, so the request goes out immediately and the stored
timestamp is unchanged. -/
def pubmed_fetch_issue (last now : ℚ) : ℚ × ℚ :=
  (now, last)

/-- The request-issuing behavior of one `fetch_scholar_papers` call
(`research_fetcher.py` lines 217–227) over the idealized clock: lines
218–222 are an inline copy of the `_wait_for_rate_limit` gate, so the
provider request is issued at the gated time, which is also stored as
the new `_last_request_time`. -/
def scholar_fetch_issue (last now : ℚ) : ℚ × ℚ :=
  (wait_for_rate_limit last now, wait_for_rate_limit last now)

/-- `model_handler.py`: the `RunResponse` of an agno agent run; only its
`content` is read. The empty string models falsy content
(`if not presentation.content`). -/
structure RunResponse where
  content : String

/-- `model_handler.py` lines 123–128: `_get_fallback_response`, the fixed
user-facing fallback string (a Python triple-quoted literal with its
indentation). -/
def fallback_response : String :=
  "\n            Peço descula, mas encontrei um erro ao gerar a resposta. Tente novamente ou refaça a sua pergunta.\n        "

/-- `model_handler.py` lines 107–114: the four sequential agent stages of
`generate_answer`. Each `.run` call is a black-box that either returns a
response or raises (`Except.error`); failure at any stage aborts the
chain. -/
def pipeline (translator researcher summarizer presenter :
    String → Except String RunResponse) (query : String) :
    Except String RunResponse := do
  let t ← translator query
  let r ← researcher t.content
  let s ← summarizer r.content
  let p ← presenter s.content
  pure p

/-- `model_handler.py` lines 105–121: `generate_answer`. The `try/except`
catches any stage failure and substitutes the fallback; empty (falsy)
presenter content also yields the fallback (lines 116–117). -/
def generate_answer (translator researcher summarizer presenter :
    String → Except String RunResponse) (query : String) : String :=
  match pipeline translator researcher summarizer presenter query with
  | .error _ => fallback_response
  | .ok p => if p.content = "" then fallback_response else p.content

/-- The weights of the scoring terms present as substrings of the
lower-cased concatenation of title and abstract (the set the spec's
"maximum weight among terms present in the text" quantifies over). -/
def presentWeights (title abstract : String) : List ℚ :=
  (autismTermWeights.filter
    (fun tw => hasSub (lowerData (title ++ " " ++ abstract)) tw.1.data)).map Prod.snd

/-- The dedup key test: does `p` have the given lower-cased title
(`research_fetcher.py` line 316)? -/
def iskey (k : String) (p : Paper) : Bool :=
  lowerStr p.title == k

/-- All candidates with the given lower-cased title, in concatenation
order. -/
def sameTitle (l : List Paper) (k : String) : List Paper :=
  l.filter (iskey k)

/-- Modelled from the spec: among the candidates with a given lower-cased
title, the one the merge must keep — the first, in source-dispatch
concatenation order, whose `relevance_score` is maximal (i.e. the
highest-scoring duplicate, ties broken by concatenation order). -/
def specWinner (l : List Paper) (k : String) : Option Paper :=
  (sameTitle l k).find?
    (fun p => (sameTitle l k).all (fun q => q.relevance_score ≤ p.relevance_score))

/-! ## Theorems -/

theorem w09_eq : w09 = 9/10 := by
  rw [w09, Rat.mk'_eq_divInt, Rat.divInt_eq_div]; norm_num

theorem w08_eq : w08 = 8/10 := by
  rw [w08, Rat.mk'_eq_divInt, Rat.divInt_eq_div]; norm_num

theorem w07_eq : w07 = 7/10 := by
  rw [w07, Rat.mk'_eq_divInt, Rat.divInt_eq_div]; norm_num

theorem half_eq : half = 1/2 := by
  rw [half, Rat.mk'_eq_divInt, Rat.divInt_eq_div]; norm_num

example : calculate_relevance_score "Autism Spectrum Disorder study" "..." = 1 := by decide
example : calculate_relevance_score "unrelated topic" "..." = half := by decide
example : calculate_relevance_score "Neurodivergent research" "..." = w07 := by decide
example : is_autism_related "Neurodivergent research" "..." = true := by decide

/-- C2: for every candidate list, `fetch_all_papers` returns at most 10
papers. -/
theorem fetch_all_at_most_ten (all_papers : List Paper) :
    (fetch_all_papers all_papers).length ≤ 10 := by
  simp [fetch_all_papers]

/-- C5: no SourceClient fetch ever propagates a provider failure to its
caller. Each fetch is a total function into `List Paper` (the
`try/except` of the Python code is the `Except`-match of the model), and
a total provider failure yields the empty list. -/
theorem fetch_fail_open (e : String) :
    fetch_arxiv (Except.error e) = [] ∧
    fetch_pubmed (Except.error e) = [] ∧
    fetch_scholar (Except.error e) = [] :=
  ⟨rfl, rfl, rfl⟩

/-- The rate-limit gate does space requests when it is on the path: two
consecutive Scholar fetches (whose inline gate, lines 218–222, is the
only live use of the gate logic) issue their provider requests at least
`_min_request_interval` apart, for every stored timestamp and every pair
of call times. -/
theorem scholar_rate_limit_spacing (last now₁ now₂ : ℚ) :
    min_request_interval ≤
      (scholar_fetch_issue (scholar_fetch_issue last now₁).2 now₂).1 -
        (scholar_fetch_issue last now₁).1 := by
  have key : ∀ l n : ℚ, l + min_request_interval ≤ wait_for_rate_limit l n := by
    intro l n
    unfold wait_for_rate_limit
    split
    · exact le_rfl
    · rename_i h
      rw [not_lt] at h
      linarith
  simp only [scholar_fetch_issue]
  have h := key (wait_for_rate_limit last now₁) now₂
  linarith

/-- C7, failing input: two consecutive `fetch_pubmed_papers` calls one
second apart (clock times 5 and 6, stored `_last_request_time` initially
0) issue their PubMed provider requests only one second apart — below
`_min_request_interval = 2.0` — because `fetch_pubmed_papers` never
reaches the rate-limit gate: the gate (whose own docstring says "Ensure
we don't exceed PubMed's rate limit") is called only by
`_make_request_with_retry`, which is dead code. Under the same schedule
the Scholar client's inline gate does keep its two requests the full
interval apart. The claim matches the code's documented intent, so the
missing gating in the PubMed fetch is a code bug, not a spec error. -/
theorem pubmed_fetch_not_rate_limited :
    (pubmed_fetch_issue (pubmed_fetch_issue 0 5).2 6).1 - (pubmed_fetch_issue 0 5).1 <
      min_request_interval ∧
    min_request_interval ≤
      (scholar_fetch_issue (scholar_fetch_issue 0 5).2 6).1 -
        (scholar_fetch_issue 0 5).1 := by
  constructor
  · norm_num [pubmed_fetch_issue, min_request_interval]
  · norm_num [scholar_fetch_issue, wait_for_rate_limit, min_request_interval]

/-- C9: `generate_answer` is total (never raises) and, whenever the
stage pipeline fails or produces empty content, returns the one fixed
fallback string; otherwise it returns the presenter's non-empty
content. -/
theorem generate_answer_fail_closed (translator researcher summarizer presenter :
    String → Except String RunResponse) (query : String) :
    generate_answer translator researcher summarizer presenter query = fallback_response ∨
    ∃ p : RunResponse,
      pipeline translator researcher summarizer presenter query = Except.ok p ∧
      p.content ≠ "" ∧
      generate_answer translator researcher summarizer presenter query = p.content := by
  cases hp : pipeline translator researcher summarizer presenter query with
  | error e =>
    left
    simp [generate_answer, hp]
  | ok p =>
    by_cases hc : p.content = ""
    · left
      simp [generate_answer, hp, hc]
    · right
      refine ⟨p, ?_, hc, ?_⟩
      · simp [hp]
      · simp [generate_answer, hp, hc]

theorem score_foldl_init_le (text : List Char) :
    ∀ (l : List (String × ℚ)) (a : ℚ),
      a ≤ l.foldl (fun score tw => if hasSub text tw.1.data then max score tw.2 else score) a
  | [], _ => le_rfl
  | x :: l, a => by
    refine le_trans ?_
      (score_foldl_init_le text l (if hasSub text x.1.data then max a x.2 else a))
    by_cases hx : hasSub text x.1.data
    · rw [if_pos hx]
      exact le_max_left a x.2
    · rw [if_neg hx]

theorem score_foldl_le_of_mem (text : List Char) :
    ∀ (l : List (String × ℚ)) (a : ℚ) (tw : String × ℚ), tw ∈ l →
      hasSub text tw.1.data = true →
      tw.2 ≤ l.foldl (fun score tw => if hasSub text tw.1.data then max score tw.2 else score) a
  | x :: l, a, tw, hmem, hsub => by
    rcases List.mem_cons.mp hmem with rfl | h
    · refine le_trans ?_
        (score_foldl_init_le text l (if hasSub text tw.1.data then max a tw.2 else a))
      rw [if_pos hsub]
      exact le_max_right a tw.2
    · exact score_foldl_le_of_mem text l _ tw h hsub

theorem score_foldl_cases (text : List Char) :
    ∀ (l : List (String × ℚ)) (a : ℚ),
      l.foldl (fun score tw => if hasSub text tw.1.data then max score tw.2 else score) a = a ∨
      ∃ tw ∈ l, hasSub text tw.1.data = true ∧
        l.foldl (fun score tw => if hasSub text tw.1.data then max score tw.2 else score) a = tw.2
  | [], _ => Or.inl rfl
  | x :: l, a => by
    have IH := score_foldl_cases text l (if hasSub text x.1.data then max a x.2 else a)
    by_cases hx : hasSub text x.1.data
    · rcases IH with h | ⟨tw, htw, hp, he⟩
      · rcases max_choice a x.2 with hm | hm
        · left
          simp only [List.foldl_cons]
          rw [h, if_pos hx, hm]
        · right
          refine ⟨x, List.mem_cons_self x l, hx, ?_⟩
          simp only [List.foldl_cons]
          rw [h, if_pos hx, hm]
      · right
        exact ⟨tw, List.mem_cons_of_mem x htw, hp, he⟩
    · rw [if_neg hx] at IH
      rcases IH with h | ⟨tw, htw, hp, he⟩
      · left
        simp only [List.foldl_cons]
        rw [if_neg hx, h]
      · right
        refine ⟨tw, List.mem_cons_of_mem x htw, hp, ?_⟩
        simp only [List.foldl_cons]
        rw [if_neg hx, he]

/-- C3: the relevance score is the maximum weight among the topic terms
present as substrings of the lower-cased concatenation of title and
abstract — it is an upper bound of the present weights and, when any
term is present, is itself one of them (so scores do not compound) — and
defaults to `0.5` when no term is present; with the spec's three
concrete evaluations. -/
theorem relevance_score_is_max (title abstract : String) :
    ((∀ w ∈ presentWeights title abstract, w ≤ calculate_relevance_score title abstract) ∧
      (presentWeights title abstract ≠ [] →
        calculate_relevance_score title abstract ∈ presentWeights title abstract) ∧
      (presentWeights title abstract = [] →
        calculate_relevance_score title abstract = 1/2)) ∧
    calculate_relevance_score "Autism Spectrum Disorder study" "..." = 1 ∧
    calculate_relevance_score "unrelated topic" "..." = 1/2 ∧
    calculate_relevance_score "Neurodivergent research" "..." = 7/10 := by
  have hpos_all : ∀ tw ∈ autismTermWeights, (0:ℚ) < tw.2 := by decide
  have hscore : calculate_relevance_score title abstract =
      if 0 < autismTermWeights.foldl
          (fun score tw =>
            if hasSub (lowerData (title ++ " " ++ abstract)) tw.1.data then max score tw.2
            else score) 0 then
        autismTermWeights.foldl
          (fun score tw =>
            if hasSub (lowerData (title ++ " " ++ abstract)) tw.1.data then max score tw.2
            else score) 0
      else half := rfl
  refine ⟨⟨?_, ?_, ?_⟩, by decide, ?_, ?_⟩
  · intro w hw
    simp only [presentWeights, List.mem_map, List.mem_filter] at hw
    obtain ⟨tw, ⟨hmem, hsub⟩, rfl⟩ := hw
    have hle := score_foldl_le_of_mem (lowerData (title ++ " " ++ abstract))
      autismTermWeights 0 tw hmem hsub
    have hF : (0:ℚ) < autismTermWeights.foldl
        (fun score tw =>
          if hasSub (lowerData (title ++ " " ++ abstract)) tw.1.data then max score tw.2
          else score) 0 := lt_of_lt_of_le (hpos_all tw hmem) hle
    rw [hscore, if_pos hF]
    exact hle
  · intro hne
    have hex : ∃ tw ∈ autismTermWeights,
        hasSub (lowerData (title ++ " " ++ abstract)) tw.1.data = true := by
      by_contra hall
      push_neg at hall
      apply hne
      simp only [presentWeights, List.map_eq_nil_iff, List.filter_eq_nil_iff]
      intro tw hmem
      simpa using hall tw hmem
    obtain ⟨tw₀, hmem₀, hsub₀⟩ := hex
    have hle₀ := score_foldl_le_of_mem (lowerData (title ++ " " ++ abstract))
      autismTermWeights 0 tw₀ hmem₀ hsub₀
    have hF : (0:ℚ) < autismTermWeights.foldl
        (fun score tw =>
          if hasSub (lowerData (title ++ " " ++ abstract)) tw.1.data then max score tw.2
          else score) 0 := lt_of_lt_of_le (hpos_all tw₀ hmem₀) hle₀
    rcases score_foldl_cases (lowerData (title ++ " " ++ abstract)) autismTermWeights 0 with
      h0 | ⟨tw, hmem, hsub, heq⟩
    · rw [h0] at hF
      exact absurd hF (lt_irrefl 0)
    · rw [hscore, if_pos hF, heq]
      simp only [presentWeights, List.mem_map, List.mem_filter]
      exact ⟨tw, ⟨hmem, hsub⟩, rfl⟩
  · intro hemp
    have hall : ∀ tw ∈ autismTermWeights,
        ¬ hasSub (lowerData (title ++ " " ++ abstract)) tw.1.data = true := by
      simp only [presentWeights, List.map_eq_nil_iff, List.filter_eq_nil_iff] at hemp
      intro tw hmem
      simpa using hemp tw hmem
    rcases score_foldl_cases (lowerData (title ++ " " ++ abstract)) autismTermWeights 0 with
      h0 | ⟨tw, hmem, hsub, _⟩
    · rw [hscore, h0, if_neg (lt_irrefl 0), half_eq]
    · exact absurd hsub (hall tw hmem)
  · rw [← half_eq]
    decide
  · rw [← w07_eq]
    decide

/-- Witness for `relevance_score_is_max`: its three implications
discharged at the spec's concrete inputs. -/
theorem relevance_score_is_max_witness :
    presentWeights "unrelated topic" "..." = [] ∧
    presentWeights "Neurodivergent research" "..." ≠ [] ∧
    w07 ∈ presentWeights "Neurodivergent research" "..." ∧
    calculate_relevance_score "unrelated topic" "..." = 1/2 ∧
    calculate_relevance_score "Neurodivergent research" "..."
      ∈ presentWeights "Neurodivergent research" "..." ∧
    w07 ≤ calculate_relevance_score "Neurodivergent research" "..." :=
  ⟨by decide, by decide, by decide,
   (relevance_score_is_max "unrelated topic" "...").1.2.2 (by decide),
   (relevance_score_is_max "Neurodivergent research" "...").1.2.1 (by decide),
   (relevance_score_is_max "Neurodivergent research" "...").1.1 w07 (by decide)⟩

theorem mem_filter_papers_relevant {p : Paper} {l : List Paper}
    (hp : p ∈ filter_papers l) : is_autism_related p.title p.abstract = true := by
  rw [filter_papers, List.mem_filter] at hp
  exact hp.2

/-- C4: every paper returned by any of the three SourceClient fetches has
passed the autism-relatedness filter — some topic term occurs in the
lower-cased concatenation of the stored title and abstract. -/
theorem sources_return_only_relevant (ars : List ArxivResult)
    (mrs : List MedlineRecord) (srs : List ScholarResult) (p : Paper) :
    (p ∈ fetch_arxiv_papers ars → is_autism_related p.title p.abstract = true) ∧
    (p ∈ fetch_pubmed_papers mrs → is_autism_related p.title p.abstract = true) ∧
    (p ∈ fetch_scholar_papers srs → is_autism_related p.title p.abstract = true) :=
  ⟨fun hp => mem_filter_papers_relevant hp,
   fun hp => mem_filter_papers_relevant hp,
   fun hp => mem_filter_papers_relevant hp⟩

/-- Witness for `sources_return_only_relevant`: all three membership
hypotheses discharged on concrete raw records. -/
theorem sources_return_only_relevant_witness :
    is_autism_related (arxiv_paper ⟨"Autism study", "sensory", "u", "2020", ["A"]⟩).title
      (arxiv_paper ⟨"Autism study", "sensory", "u", "2020", ["A"]⟩).abstract = true ∧
    is_autism_related
      (pubmed_paper ⟨some "Autism", some "asd study", some "1", some "2020", some ["A"]⟩).title
      (pubmed_paper ⟨some "Autism", some "asd study", some "1", some "2020", some ["A"]⟩).abstract
      = true ∧
    is_autism_related
      (scholar_paper ⟨some ⟨some "Autistic adults", some "asd", some "2020", some ["A"]⟩, some "u"⟩
        ⟨some "Autistic adults", some "asd", some "2020", some ["A"]⟩).title
      (scholar_paper ⟨some ⟨some "Autistic adults", some "asd", some "2020", some ["A"]⟩, some "u"⟩
        ⟨some "Autistic adults", some "asd", some "2020", some ["A"]⟩).abstract = true :=
  ⟨(sources_return_only_relevant [⟨"Autism study", "sensory", "u", "2020", ["A"]⟩] [] []
      (arxiv_paper ⟨"Autism study", "sensory", "u", "2020", ["A"]⟩)).1 (by decide),
   (sources_return_only_relevant []
      [⟨some "Autism", some "asd study", some "1", some "2020", some ["A"]⟩] []
      (pubmed_paper ⟨some "Autism", some "asd study", some "1", some "2020", some ["A"]⟩)).2.1
      (by decide),
   (sources_return_only_relevant [] []
      [⟨some ⟨some "Autistic adults", some "asd", some "2020", some ["A"]⟩, some "u"⟩]
      (scholar_paper ⟨some ⟨some "Autistic adults", some "asd", some "2020", some ["A"]⟩, some "u"⟩
        ⟨some "Autistic adults", some "asd", some "2020", some ["A"]⟩)).2.2 (by decide)⟩

/-- C6 counterexample: a PubMed record whose abstract (`AB`) is missing
is not normalized into a `Paper` with a placeholder abstract — line 189
(`if "AB" in record`) drops it entirely, so the collected list is empty
where the claim requires one normalized `Paper`. -/
theorem pubmed_missing_abstract_not_normalized :
    pubmed_collect [⟨some "Autism study", none, some "1", some "2020", some ["A"]⟩] = [] := by
  decide

/-- C6 as amended: missing title/date/authors fields are filled with the
code's fallback placeholder strings in both the PubMed and the Scholar
normalization, and a missing Scholar abstract gets a placeholder too;
but a PubMed record with a missing abstract is skipped entirely (not
normalized), so its abstract placeholder is never used. -/
theorem normalization_fallbacks (r : MedlineRecord) (res : ScholarResult) (bib : ScholarBib) :
    (r.AB.isSome → pubmed_collect [r] = [pubmed_paper r]) ∧
    (r.AB = none → pubmed_collect [r] = []) ∧
    (r.TI = none → (pubmed_paper r).title = "No title available") ∧
    (r.DP = none → (pubmed_paper r).publication_date = "Date not available") ∧
    (r.AU = none → (pubmed_paper r).authors = some "Unknown") ∧
    (res.bib = none → scholar_collect [res] = []) ∧
    (res.bib = some bib → scholar_collect [res] = [scholar_paper res bib]) ∧
    (bib.title = none → (scholar_paper res bib).title = "No title available") ∧
    (bib.abstract = none → (scholar_paper res bib).abstract = "No abstract available") ∧
    (bib.pub_year = none → (scholar_paper res bib).publication_date = "Year not available") ∧
    (bib.author = none → (scholar_paper res bib).authors = some "Unknown") := by
  refine ⟨?_, ?_, ?_, ?_, ?_, ?_, ?_, ?_, ?_, ?_, ?_⟩ <;> intro h
  · simp [pubmed_collect, List.filter, h]
  · simp [pubmed_collect, List.filter, h]
  · simp [pubmed_paper, h]
  · simp [pubmed_paper, h]
  · simp [pubmed_paper, h]
  · simp [scholar_collect, h]
  · simp [scholar_collect, h]
  · rw [scholar_paper]
    simp only [h, Option.getD_none]
    decide
  · rw [scholar_paper]
    simp only [h, Option.getD_none]
    decide
  · simp [scholar_paper, h]
  · simp [scholar_paper, h]

/-- Witness for `normalization_fallbacks`: every hypothesis discharged on
concrete records. -/
theorem normalization_fallbacks_witness :
    pubmed_collect [(⟨none, some "an asd abstract", none, none, none⟩ : MedlineRecord)] =
      [pubmed_paper ⟨none, some "an asd abstract", none, none, none⟩] ∧
    pubmed_collect [(⟨some "T", none, none, none, none⟩ : MedlineRecord)] = [] ∧
    (pubmed_paper ⟨none, some "an asd abstract", none, none, none⟩).title =
      "No title available" ∧
    (pubmed_paper ⟨none, some "an asd abstract", none, none, none⟩).publication_date =
      "Date not available" ∧
    (pubmed_paper ⟨none, some "an asd abstract", none, none, none⟩).authors = some "Unknown" ∧
    scholar_collect [(⟨none, some "u"⟩ : ScholarResult)] = [] ∧
    scholar_collect [(⟨some ⟨none, none, none, none⟩, some "u"⟩ : ScholarResult)] =
      [scholar_paper ⟨some ⟨none, none, none, none⟩, some "u"⟩ ⟨none, none, none, none⟩] ∧
    (scholar_paper ⟨some ⟨none, none, none, none⟩, some "u"⟩ ⟨none, none, none, none⟩).title =
      "No title available" ∧
    (scholar_paper ⟨some ⟨none, none, none, none⟩, some "u"⟩ ⟨none, none, none, none⟩).abstract =
      "No abstract available" ∧
    (scholar_paper ⟨some ⟨none, none, none, none⟩, some "u"⟩
        ⟨none, none, none, none⟩).publication_date = "Year not available" ∧
    (scholar_paper ⟨some ⟨none, none, none, none⟩, some "u"⟩ ⟨none, none, none, none⟩).authors =
      some "Unknown" :=
  ⟨(normalization_fallbacks ⟨none, some "an asd abstract", none, none, none⟩
      ⟨none, some "u"⟩ ⟨none, none, none, none⟩).1 (by decide),
   (normalization_fallbacks ⟨some "T", none, none, none, none⟩
      ⟨none, some "u"⟩ ⟨none, none, none, none⟩).2.1 (by decide),
   (normalization_fallbacks ⟨none, some "an asd abstract", none, none, none⟩
      ⟨none, some "u"⟩ ⟨none, none, none, none⟩).2.2.1 (by decide),
   (normalization_fallbacks ⟨none, some "an asd abstract", none, none, none⟩
      ⟨none, some "u"⟩ ⟨none, none, none, none⟩).2.2.2.1 (by decide),
   (normalization_fallbacks ⟨none, some "an asd abstract", none, none, none⟩
      ⟨none, some "u"⟩ ⟨none, none, none, none⟩).2.2.2.2.1 (by decide),
   (normalization_fallbacks ⟨none, some "an asd abstract", none, none, none⟩
      ⟨none, some "u"⟩ ⟨none, none, none, none⟩).2.2.2.2.2.1 (by decide),
   (normalization_fallbacks ⟨none, some "an asd abstract", none, none, none⟩
      ⟨some ⟨none, none, none, none⟩, some "u"⟩ ⟨none, none, none, none⟩).2.2.2.2.2.2.1
      (by decide),
   (normalization_fallbacks ⟨none, some "an asd abstract", none, none, none⟩
      ⟨some ⟨none, none, none, none⟩, some "u"⟩ ⟨none, none, none, none⟩).2.2.2.2.2.2.2.1
      (by decide),
   (normalization_fallbacks ⟨none, some "an asd abstract", none, none, none⟩
      ⟨some ⟨none, none, none, none⟩, some "u"⟩ ⟨none, none, none, none⟩).2.2.2.2.2.2.2.2.1
      (by decide),
   (normalization_fallbacks ⟨none, some "an asd abstract", none, none, none⟩
      ⟨some ⟨none, none, none, none⟩, some "u"⟩ ⟨none, none, none, none⟩).2.2.2.2.2.2.2.2.2.1
      (by decide),
   (normalization_fallbacks ⟨none, some "an asd abstract", none, none, none⟩
      ⟨some ⟨none, none, none, none⟩, some "u"⟩ ⟨none, none, none, none⟩).2.2.2.2.2.2.2.2.2.2
      (by decide)⟩

theorem find?_eraseP_length {α : Type} (p : α → Bool) :
    ∀ (l : List α) (e : α), l.find? p = some e → (l.eraseP p).length + 1 = l.length
  | x :: l, e, h => by
    by_cases hx : p x
    · rw [List.eraseP_cons_of_pos hx, List.length_cons]
    · rw [List.find?_cons_of_neg _ hx] at h
      rw [List.eraseP_cons_of_neg hx, List.length_cons, List.length_cons,
        find?_eraseP_length p l e h]

theorem cached_fetch_hit (f : String → List Paper) (v : List Paper)
    (rest : List (String × List Paper)) (q : String) :
    cached_fetch f ((q, v) :: rest) q = (v, (q, v) :: rest, false) := by
  have hfind : ((q, v) :: rest).find? (fun e => e.1 == q) = some (q, v) :=
    List.find?_cons_of_pos rest (by simp)
  have herase : ((q, v) :: rest).eraseP (fun e' => e'.1 == q) = rest :=
    List.eraseP_cons_of_pos (by simp)
  simp only [cached_fetch, hfind, herase]

/-- C8: the memoized bulk-search client. After any call on query `q`, a
second call on `q` returns the same paper list and performs no provider
(network) call; both resulting cache states respect the `CACHE_SIZE`
bound whenever the initial state does. -/
theorem arxiv_cache_idempotent (f : String → List Paper)
    (cache : List (String × List Paper)) (q : String)
    (hsize : cache.length ≤ CACHE_SIZE) :
    (cached_fetch f (cached_fetch f cache q).2.1 q).1 = (cached_fetch f cache q).1 ∧
    (cached_fetch f (cached_fetch f cache q).2.1 q).2.2 = false ∧
    (cached_fetch f cache q).2.1.length ≤ CACHE_SIZE ∧
    (cached_fetch f (cached_fetch f cache q).2.1 q).2.1.length ≤ CACHE_SIZE := by
  cases h : cache.find? (fun e => e.1 == q) with
  | some e =>
    have hc1 : cached_fetch f cache q =
        (e.2, (q, e.2) :: cache.eraseP (fun e' => e'.1 == q), false) := by
      simp only [cached_fetch, h]
    have hlen0 := find?_eraseP_length (fun e' => e'.1 == q) cache e h
    have hc2 := cached_fetch_hit f e.2 (cache.eraseP (fun e' => e'.1 == q)) q
    refine ⟨?_, ?_, ?_, ?_⟩
    · simp [hc1, hc2]
    · simp [hc1, hc2]
    · simp only [hc1, List.length_cons]
      omega
    · simp only [hc1, hc2, List.length_cons]
      omega
  | none =>
    have hc1 : cached_fetch f cache q = (f q, ((q, f q) :: cache).take CACHE_SIZE, true) := by
      simp only [cached_fetch, h]
    have htake : ((q, f q) :: cache).take CACHE_SIZE = (q, f q) :: cache.take 127 := by
      rw [show CACHE_SIZE = 127 + 1 from rfl, List.take_succ_cons]
    have hc2 := cached_fetch_hit f (f q) (cache.take 127) q
    have he : ((cache.take 127).eraseP (fun e' => e'.1 == q)).length ≤ (cache.take 127).length :=
      (List.eraseP_sublist _).length_le
    have ht : (cache.take 127).length ≤ 127 := List.length_take_le 127 cache
    refine ⟨?_, ?_, ?_, ?_⟩
    · simp [hc1, htake, hc2]
    · simp [hc1, htake, hc2]
    · rw [hc1]
      exact List.length_take_le CACHE_SIZE _
    · simp only [hc1, htake, hc2, List.length_cons]
      have hcs : CACHE_SIZE = 128 := rfl
      omega

/-- Witness for `arxiv_cache_idempotent`: the size hypothesis discharged
on the empty cache. -/
theorem arxiv_cache_idempotent_witness :
    (cached_fetch (fun _ => []) (cached_fetch (fun _ => []) [] "autism").2.1 "autism").1 =
      (cached_fetch (fun _ => []) [] "autism").1 ∧
    (cached_fetch (fun _ => []) (cached_fetch (fun _ => []) [] "autism").2.1 "autism").2.2 =
      false :=
  ⟨(arxiv_cache_idempotent (fun _ => []) [] "autism" (by decide)).1,
   (arxiv_cache_idempotent (fun _ => []) [] "autism" (by decide)).2.1⟩

theorem insertDesc_perm : ∀ (p : Paper) (l : List Paper), List.Perm (insertDesc p l) (p :: l)
  | _, [] => List.Perm.refl _
  | p, q :: qs => by
    unfold insertDesc
    split
    · exact List.Perm.refl _
    · exact ((insertDesc_perm p qs).cons q).trans (List.Perm.swap p q qs)

theorem sortDesc_perm : ∀ l : List Paper, List.Perm (sortDesc l) l
  | [] => List.Perm.refl _
  | p :: ps => (insertDesc_perm p (sortDesc ps)).trans ((sortDesc_perm ps).cons p)

theorem insertDesc_pairwise : ∀ (p : Paper) (l : List Paper),
    l.Pairwise (fun x y => y.relevance_score ≤ x.relevance_score) →
    (insertDesc p l).Pairwise (fun x y => y.relevance_score ≤ x.relevance_score)
  | p, [], _ => by simp [insertDesc]
  | p, q :: qs, h => by
    rcases List.pairwise_cons.mp h with ⟨hq, hqs⟩
    unfold insertDesc
    split
    · rename_i hle
      refine List.pairwise_cons.mpr ⟨?_, h⟩
      intro b hb
      rcases List.mem_cons.mp hb with rfl | hb
      · exact hle
      · exact le_trans (hq b hb) hle
    · rename_i hgt
      refine List.pairwise_cons.mpr ⟨?_, insertDesc_pairwise p qs hqs⟩
      intro b hb
      rcases List.mem_cons.mp ((insertDesc_perm p qs).mem_iff.mp hb) with rfl | hb
      · exact le_of_lt (lt_of_not_le hgt)
      · exact hq b hb

theorem sortDesc_pairwise : ∀ l : List Paper,
    (sortDesc l).Pairwise (fun x y => y.relevance_score ≤ x.relevance_score)
  | [] => List.Pairwise.nil
  | p :: ps => insertDesc_pairwise p (sortDesc ps) (sortDesc_pairwise ps)

theorem find?_insertDesc_of_neg (pred : Paper → Bool) (p : Paper) (hp : ¬ pred p = true) :
    ∀ l : List Paper, (insertDesc p l).find? pred = l.find? pred
  | [] => by simp [insertDesc, List.find?, hp]
  | q :: qs => by
    unfold insertDesc
    split
    · rw [List.find?_cons_of_neg _ hp]
    · by_cases hq : pred q
      · rw [List.find?_cons_of_pos _ hq, List.find?_cons_of_pos _ hq]
      · rw [List.find?_cons_of_neg _ hq, List.find?_cons_of_neg _ hq,
          find?_insertDesc_of_neg pred p hp qs]

theorem find?_insertDesc_max (k : String) (p : Paper) (hk : iskey k p = true) :
    ∀ S : List Paper,
      (∀ q ∈ S, iskey k q = true → q.relevance_score ≤ p.relevance_score) →
      (insertDesc p S).find? (iskey k) = some p
  | [], _ => by
    unfold insertDesc
    exact List.find?_cons_of_pos _ hk
  | q :: qs, hmax => by
    unfold insertDesc
    split
    · exact List.find?_cons_of_pos _ hk
    · rename_i hgt
      have hq : ¬ iskey k q = true := by
        intro hqk
        exact hgt (hmax q (List.mem_cons_self q qs) hqk)
      rw [List.find?_cons_of_neg _ hq]
      exact find?_insertDesc_max k p hk qs
        (fun r hr h => hmax r (List.mem_cons_of_mem q hr) h)

theorem find?_insertDesc_beaten (k : String) (p w : Paper) (hk : iskey k p = true) :
    ∀ S : List Paper,
      S.Pairwise (fun x y => y.relevance_score ≤ x.relevance_score) →
      S.find? (iskey k) = some w →
      p.relevance_score < w.relevance_score →
      (insertDesc p S).find? (iskey k) = some w
  | [], _, hfind, _ => by simp [List.find?] at hfind
  | q :: qs, hsort, hfind, hlt => by
    rcases List.pairwise_cons.mp hsort with ⟨hq, hqs⟩
    unfold insertDesc
    split
    · rename_i hle
      exfalso
      by_cases hqk : iskey k q = true
      · rw [List.find?_cons_of_pos _ hqk] at hfind
        injection hfind with he
        subst he
        exact absurd hlt (not_lt.mpr hle)
      · rw [List.find?_cons_of_neg _ hqk] at hfind
        have hwq : w ∈ qs := List.mem_of_find?_eq_some hfind
        exact absurd hlt (not_lt.mpr (le_trans (hq w hwq) hle))
    · by_cases hqk : iskey k q = true
      · rw [List.find?_cons_of_pos _ hqk] at hfind ⊢
        exact hfind
      · rw [List.find?_cons_of_neg _ hqk] at hfind ⊢
        exact find?_insertDesc_beaten k p w hk qs hqs hfind hlt

theorem exists_max_score (L : List Paper) (hne : L ≠ []) :
    ∃ m ∈ L, ∀ q ∈ L, q.relevance_score ≤ m.relevance_score := by
  induction L with
  | nil => exact absurd rfl hne
  | cons x xs IH =>
    cases xs with
    | nil =>
      refine ⟨x, List.mem_cons_self x [], ?_⟩
      intro q hq
      rcases List.mem_cons.mp hq with rfl | hq
      · exact le_rfl
      · exact absurd hq (List.not_mem_nil q)
    | cons y ys =>
      obtain ⟨m, hm, hall⟩ := IH (by simp)
      by_cases h : x.relevance_score ≤ m.relevance_score
      · refine ⟨m, List.mem_cons_of_mem x hm, ?_⟩
        intro q hq
        rcases List.mem_cons.mp hq with rfl | hq
        · exact h
        · exact hall q hq
      · refine ⟨x, List.mem_cons_self x (y :: ys), ?_⟩
        intro q hq
        rcases List.mem_cons.mp hq with rfl | hq
        · exact le_rfl
        · exact le_trans (hall q hq) (le_of_not_le h)

theorem find?_congr_on {α : Type} (f g : α → Bool) :
    ∀ L : List α, (∀ x ∈ L, f x = g x) → L.find? f = L.find? g
  | [], _ => rfl
  | x :: L, h => by
    have hx := h x (List.mem_cons_self x L)
    by_cases hfx : f x = true
    · have hgx : g x = true := hx ▸ hfx
      rw [List.find?_cons_of_pos _ hfx, List.find?_cons_of_pos _ hgx]
    · have hgx : ¬ g x = true := fun hg => hfx (hx ▸ hg)
      rw [List.find?_cons_of_neg _ hfx, List.find?_cons_of_neg _ hgx,
        find?_congr_on f g L (fun y hy => h y (List.mem_cons_of_mem x hy))]

theorem find?_sortDesc : ∀ (l : List Paper) (k : String),
    (sortDesc l).find? (iskey k) = specWinner l k
  | [], _ => rfl
  | p :: ps, k => by
    have IH := find?_sortDesc ps k
    by_cases hk : iskey k p = true
    · have hsame : sameTitle (p :: ps) k = p :: sameTitle ps k := by
        simp [sameTitle, List.filter_cons, hk]
      by_cases hmax : ∀ q ∈ sameTitle ps k, q.relevance_score ≤ p.relevance_score
      · have hmaxS : ∀ q ∈ sortDesc ps, iskey k q = true →
            q.relevance_score ≤ p.relevance_score := by
          intro q hq hqk
          refine hmax q ?_
          rw [sameTitle, List.mem_filter]
          exact ⟨(sortDesc_perm ps).mem_iff.mp hq, hqk⟩
        have hL : (insertDesc p (sortDesc ps)).find? (iskey k) = some p :=
          find?_insertDesc_max k p hk (sortDesc ps) hmaxS
        have hpredp :
            ((p :: sameTitle ps k).all
              (fun q => q.relevance_score ≤ p.relevance_score)) = true := by
          simp only [List.all_eq_true, decide_eq_true_eq]
          intro q hq
          rcases List.mem_cons.mp hq with rfl | hq
          · exact le_rfl
          · exact hmax q hq
        have hR : specWinner (p :: ps) k = some p := by
          rw [specWinner, hsame]
          exact List.find?_cons_of_pos _ hpredp
        show (insertDesc p (sortDesc ps)).find? (iskey k) = specWinner (p :: ps) k
        rw [hL, hR]
      · push_neg at hmax
        obtain ⟨q₀, hq₀F, hq₀gt⟩ := hmax
        have hFne : sameTitle ps k ≠ [] := by
          intro h
          rw [h] at hq₀F
          exact absurd hq₀F (List.not_mem_nil q₀)
        have hsome : ∃ w', specWinner ps k = some w' := by
          obtain ⟨m, hmF, hmax'⟩ := exists_max_score (sameTitle ps k) hFne
          have hs : ((sameTitle ps k).find?
              (fun r => (sameTitle ps k).all
                (fun q => q.relevance_score ≤ r.relevance_score))).isSome := by
            rw [List.find?_isSome]
            refine ⟨m, hmF, ?_⟩
            simp only [List.all_eq_true, decide_eq_true_eq]
            exact hmax'
          rw [specWinner]
          exact Option.isSome_iff_exists.mp hs
        obtain ⟨w', hw'⟩ := hsome
        have hw'find : (sameTitle ps k).find?
            (fun r => (sameTitle ps k).all
              (fun q => q.relevance_score ≤ r.relevance_score)) = some w' := by
          rw [specWinner] at hw'
          exact hw'
        have hw'F : w' ∈ sameTitle ps k := List.mem_of_find?_eq_some hw'find
        have hw'max : ∀ q ∈ sameTitle ps k, q.relevance_score ≤ w'.relevance_score := by
          have h2 := List.find?_some hw'find
          simpa only [List.all_eq_true, decide_eq_true_eq] using h2
        have hpw' : p.relevance_score < w'.relevance_score :=
          lt_of_lt_of_le hq₀gt (hw'max q₀ hq₀F)
        have hL : (insertDesc p (sortDesc ps)).find? (iskey k) = some w' :=
          find?_insertDesc_beaten k p w' hk (sortDesc ps) (sortDesc_pairwise ps)
            (IH.trans hw') hpw'
        have hpredp :
            ¬ ((p :: sameTitle ps k).all
              (fun q => q.relevance_score ≤ p.relevance_score)) = true := by
          simp only [List.all_eq_true, decide_eq_true_eq]
          push_neg
          exact ⟨q₀, List.mem_cons_of_mem p hq₀F, hq₀gt⟩
        have hR : specWinner (p :: ps) k = some w' := by
          rw [specWinner, hsame,
            List.find?_cons_of_neg
              (p := fun r : Paper => (p :: sameTitle ps k).all
                (fun q => q.relevance_score ≤ r.relevance_score)) _ hpredp]
          rw [find?_congr_on
            (fun r => (p :: sameTitle ps k).all
              (fun q => q.relevance_score ≤ r.relevance_score))
            (fun r => (sameTitle ps k).all
              (fun q => q.relevance_score ≤ r.relevance_score))
            (sameTitle ps k) ?_]
          · exact hw'find
          · intro r hr
            simp only [List.all_cons]
            by_cases hrall : ((sameTitle ps k).all
                (fun q => q.relevance_score ≤ r.relevance_score)) = true
            · have hrmax : ∀ q ∈ sameTitle ps k, q.relevance_score ≤ r.relevance_score := by
                simpa only [List.all_eq_true, decide_eq_true_eq] using hrall
              have hpr : p.relevance_score ≤ r.relevance_score :=
                le_of_lt (lt_of_lt_of_le hq₀gt (hrmax q₀ hq₀F))
              simp [hrall, hpr]
            · rw [Bool.not_eq_true] at hrall
              simp [hrall]
        show (insertDesc p (sortDesc ps)).find? (iskey k) = specWinner (p :: ps) k
        rw [hL, hR]
    · have hsame : sameTitle (p :: ps) k = sameTitle ps k := by
        simp [sameTitle, List.filter_cons, hk]
      show (insertDesc p (sortDesc ps)).find? (iskey k) = specWinner (p :: ps) k
      rw [find?_insertDesc_of_neg (iskey k) p hk (sortDesc ps), IH, specWinner, specWinner, hsame]

theorem dedupAux_find? : ∀ (l : List Paper) (seen : List String) (k : String),
    (dedupAux seen l).find? (iskey k) = if k ∈ seen then none else l.find? (iskey k)
  | [], seen, k => by
    simp [dedupAux, List.find?]
  | p :: ps, seen, k => by
    unfold dedupAux
    by_cases hmem : lowerStr p.title ∈ seen
    · rw [if_pos hmem, dedupAux_find? ps seen k]
      by_cases hk : k ∈ seen
      · rw [if_pos hk, if_pos hk]
      · rw [if_neg hk, if_neg hk]
        have hpk : ¬ iskey k p = true := by
          simp only [iskey, beq_iff_eq]
          intro he
          exact hk (he ▸ hmem)
        rw [List.find?_cons_of_neg _ hpk]
    · rw [if_neg hmem]
      by_cases hk : k ∈ seen
      · rw [if_pos hk]
        have hpk : ¬ iskey k p = true := by
          simp only [iskey, beq_iff_eq]
          intro he
          exact hmem (he ▸ hk)
        rw [List.find?_cons_of_neg _ hpk, dedupAux_find? ps _ k,
          if_pos (List.mem_cons_of_mem _ hk)]
      · rw [if_neg hk]
        by_cases hpk : iskey k p = true
        · rw [List.find?_cons_of_pos _ hpk, List.find?_cons_of_pos _ hpk]
        · rw [List.find?_cons_of_neg _ hpk, List.find?_cons_of_neg _ hpk,
            dedupAux_find? ps _ k]
          have hnot : k ∉ lowerStr p.title :: seen := by
            intro hmem2
            rcases List.mem_cons.mp hmem2 with he | he
            · exact hpk (by simp [iskey, he])
            · exact hk he
          rw [if_neg hnot]

theorem dedupAux_countP : ∀ (l : List Paper) (seen : List String) (k : String),
    (dedupAux seen l).countP (iskey k) =
      if k ∈ seen then 0 else (if l.any (iskey k) then 1 else 0)
  | [], seen, k => by
    simp [dedupAux]
  | p :: ps, seen, k => by
    unfold dedupAux
    by_cases hmem : lowerStr p.title ∈ seen
    · rw [if_pos hmem, dedupAux_countP ps seen k]
      by_cases hk : k ∈ seen
      · rw [if_pos hk, if_pos hk]
      · have hpk : ¬ iskey k p = true := by
          simp only [iskey, beq_iff_eq]
          intro he
          exact hk (he ▸ hmem)
        rw [if_neg hk, if_neg hk, List.any_cons]
        simp [hpk]
    · rw [if_neg hmem]
      by_cases hpk : iskey k p = true
      · have hkey : lowerStr p.title = k := by simpa [iskey] using hpk
        have hk : k ∉ seen := fun h => hmem (hkey ▸ h)
        rw [List.countP_cons_of_pos _ _ hpk, dedupAux_countP ps _ k,
          if_pos (List.mem_cons.mpr (Or.inl hkey.symm)), if_neg hk, List.any_cons]
        simp [hpk]
      · rw [List.countP_cons_of_neg _ _ hpk, dedupAux_countP ps _ k]
        by_cases hk : k ∈ seen
        · rw [if_pos (List.mem_cons_of_mem _ hk), if_pos hk]
        · have hnot : k ∉ lowerStr p.title :: seen := by
            intro hmem2
            rcases List.mem_cons.mp hmem2 with he | he
            · exact hpk (by simp [iskey, he])
            · exact hk he
          rw [if_neg hnot, if_neg hk, List.any_cons]
          simp [hpk]

/-- C1: in the merged (sorted, deduplicated) list, each duplicated
lower-cased title occurs exactly once, and the survivor is the spec's
winner: the highest-scoring candidate with that title, ties broken by
first position in the concatenation order (`specWinner`). The final
return value of `fetch_all_papers` is this merged list truncated to 10
(its own bound is C2). -/
theorem merge_dedup_keeps_best (l : List Paper) (a b : Paper) (ha : a ∈ l) (_hb : b ∈ l)
    (_ht : lowerStr a.title = lowerStr b.title) :
    (sort_and_dedup l).countP (iskey (lowerStr a.title)) = 1 ∧
    (sort_and_dedup l).find? (iskey (lowerStr a.title)) = specWinner l (lowerStr a.title) ∧
    fetch_all_papers l = (sort_and_dedup l).take 10 := by
  refine ⟨?_, ?_, rfl⟩
  · rw [sort_and_dedup, dedupAux_countP, if_neg (List.not_mem_nil _)]
    have hany : (sortDesc l).any (iskey (lowerStr a.title)) = true := by
      rw [List.any_eq_true]
      exact ⟨a, (sortDesc_perm l).mem_iff.mpr ha, by simp [iskey]⟩
    rw [hany, if_pos rfl]
  · rw [sort_and_dedup, dedupAux_find?, if_neg (List.not_mem_nil _), find?_sortDesc]

/-- Witness for `merge_dedup_keeps_best`: two concrete candidates with
the same lower-cased title and different scores; the arXiv one (score 1)
wins. -/
theorem merge_dedup_keeps_best_witness :
    (⟨"Autism Study", "a", "u", "d", w09, "PubMed", none⟩ : Paper) ∈
      [(⟨"Autism Study", "a", "u", "d", w09, "PubMed", none⟩ : Paper),
       ⟨"autism study", "b", "u2", "d2", 1, "arXiv", none⟩] ∧
    (⟨"autism study", "b", "u2", "d2", 1, "arXiv", none⟩ : Paper) ∈
      [(⟨"Autism Study", "a", "u", "d", w09, "PubMed", none⟩ : Paper),
       ⟨"autism study", "b", "u2", "d2", 1, "arXiv", none⟩] ∧
    lowerStr "Autism Study" = lowerStr "autism study" ∧
    (sort_and_dedup
        [(⟨"Autism Study", "a", "u", "d", w09, "PubMed", none⟩ : Paper),
         ⟨"autism study", "b", "u2", "d2", 1, "arXiv", none⟩]).countP
      (iskey (lowerStr "Autism Study")) = 1 ∧
    (sort_and_dedup
        [(⟨"Autism Study", "a", "u", "d", w09, "PubMed", none⟩ : Paper),
         ⟨"autism study", "b", "u2", "d2", 1, "arXiv", none⟩]).find?
      (iskey (lowerStr "Autism Study")) =
      specWinner
        [(⟨"Autism Study", "a", "u", "d", w09, "PubMed", none⟩ : Paper),
         ⟨"autism study", "b", "u2", "d2", 1, "arXiv", none⟩]
        (lowerStr "Autism Study") :=
  ⟨by decide, by decide, by decide,
   (merge_dedup_keeps_best
      [⟨"Autism Study", "a", "u", "d", w09, "PubMed", none⟩,
       ⟨"autism study", "b", "u2", "d2", 1, "arXiv", none⟩]
      ⟨"Autism Study", "a", "u", "d", w09, "PubMed", none⟩
      ⟨"autism study", "b", "u2", "d2", 1, "arXiv", none⟩
      (by decide) (by decide) (by decide)).1,
   (merge_dedup_keeps_best
      [⟨"Autism Study", "a", "u", "d", w09, "PubMed", none⟩,
       ⟨"autism study", "b", "u2", "d2", 1, "arXiv", none⟩]
      ⟨"Autism Study", "a", "u", "d", w09, "PubMed", none⟩
      ⟨"autism study", "b", "u2", "d2", 1, "arXiv", none⟩
      (by decide) (by decide) (by decide)).2.1⟩

theorem isPrefixOf_exists (u : List Char) :
    ∀ v : List Char, u.isPrefixOf v = true ↔ ∃ t, u ++ t = v := by
  induction u with
  | nil =>
    intro v
    simp [List.isPrefixOf]
  | cons c cs IH =>
    intro v
    cases v with
    | nil =>
      simp [List.isPrefixOf]
    | cons d ds =>
      simp only [List.isPrefixOf, Bool.and_eq_true, beq_iff_eq, IH]
      constructor
      · rintro ⟨rfl, t, rfl⟩
        exact ⟨t, rfl⟩
      · rintro ⟨t, he⟩
        injection he with h1 h2
        exact ⟨h1, t, h2⟩

theorem hasSub_iff (term : List Char) :
    ∀ text : List Char, hasSub text term = true ↔ occursIn term text := by
  intro text
  induction text with
  | nil =>
    simp only [hasSub, List.isEmpty_iff, occursIn]
    constructor
    · rintro rfl
      exact ⟨[], [], rfl⟩
    · rintro ⟨s, e, he⟩
      rcases List.append_eq_nil.mp he with ⟨h1, h2⟩
      exact (List.append_eq_nil.mp h1).2
  | cons c rest IH =>
    simp only [hasSub, Bool.or_eq_true, IH, isPrefixOf_exists]
    constructor
    · rintro (⟨t, ht⟩ | ⟨s, e, hse⟩)
      · exact ⟨[], t, by simpa using ht⟩
      · exact ⟨c :: s, e, by simp [← hse]⟩
    · rintro ⟨s, e, he⟩
      cases s with
      | nil =>
        left
        exact ⟨e, by simpa using he⟩
      | cons c' s' =>
        right
        injection he with h1 h2
        exact ⟨s', e, h2⟩

theorem occursIn_append_left (term x y : List Char) (h : occursIn term x) :
    occursIn term (x ++ y) := by
  obtain ⟨s, e, rfl⟩ := h
  exact ⟨s, e ++ y, by simp⟩

theorem occursIn_append_right (term x y : List Char) (h : occursIn term y) :
    occursIn term (x ++ y) := by
  obtain ⟨s, e, rfl⟩ := h
  exact ⟨x ++ s, e, by simp⟩

theorem occursIn_take (term : List Char) (n : Nat) (l : List Char)
    (h : occursIn term (l.take n)) : occursIn term l := by
  have h2 := occursIn_append_left term (l.take n) (l.drop n) h
  rwa [List.take_append_drop] at h2

theorem occursIn_append_split (term x y : List Char) (h : occursIn term (x ++ y)) :
    occursIn term x ∨ occursIn term y ∨
    ∃ k, 0 < k ∧ k < term.length ∧
      (∃ s, s ++ term.take k = x) ∧ (∃ e, term.drop k ++ e = y) := by
  obtain ⟨s, e, he⟩ := h
  rw [List.append_assoc] at he
  rcases List.append_eq_append_iff.mp he with ⟨a, hxa, hte⟩ | ⟨c, hsc, hyc⟩
  · rcases List.append_eq_append_iff.mp hte with ⟨u, hau, heu⟩ | ⟨v, htv, hyv⟩
    · left
      exact ⟨s, u, by rw [hxa, hau, List.append_assoc]⟩
    · by_cases ha : a = []
      · right; left
        subst ha
        simp only [List.nil_append] at htv
        exact ⟨[], e, by rw [List.nil_append, hyv, htv]⟩
      · by_cases hv : v = []
        · left
          subst hv
          rw [List.append_nil] at htv
          exact ⟨s, [], by rw [List.append_nil, hxa, htv]⟩
        · right; right
          refine ⟨a.length, List.length_pos.mpr ha, ?_, ⟨s, ?_⟩, ⟨e, ?_⟩⟩
          · rw [htv, List.length_append]
            have := List.length_pos.mpr hv
            omega
          · rw [htv, List.take_left, hxa]
          · rw [htv, List.drop_left, hyv]
  · right; left
    exact ⟨c, e, by rw [List.append_assoc, hyc]⟩

theorem filter_terms_have_weights :
    ∀ t ∈ autism_terms, ∃ tw ∈ autismTermWeights, tw.1 = t ∧ w07 ≤ tw.2 := by
  decide

theorem terms_ne_nil : ∀ t ∈ autism_terms, t.data ≠ [] := by
  decide

theorem terms_head_not_space : ∀ t ∈ autism_terms, t.data.head? ≠ some ' ' := by
  decide

theorem terms_space_split :
    ∀ t ∈ autism_terms, ∀ k, k < t.data.length →
      (t.data.drop k).head? = some ' ' →
      ("autism".data.isPrefixOf (t.data.take k)) = true := by
  decide

theorem lowerData_append (s t : String) :
    lowerData (s ++ t) = lowerData s ++ lowerData t := by
  simp [lowerData, String.data_append]

theorem lowerCat_eq (t a : String) :
    lowerData (t ++ " " ++ a) = lowerData t ++ ' ' :: lowerData a := by
  rw [lowerData_append, lowerData_append]
  have hsp : lowerData " " = [' '] := rfl
  rw [hsp, List.append_assoc, List.singleton_append]

theorem lowerData_pySlice (s : String) (n : Nat) :
    lowerData (pySlice s n) = (lowerData s).take n := by
  simp [lowerData, pySlice, List.map_take]

theorem score_ge_of_term (title abstract : String) (t : String) (htm : t ∈ autism_terms)
    (hocc : occursIn t.data (lowerData (title ++ " " ++ abstract))) :
    w07 ≤ calculate_relevance_score title abstract := by
  obtain ⟨tw, htw, hteq, hw⟩ := filter_terms_have_weights t htm
  have hsub : hasSub (lowerData (title ++ " " ++ abstract)) tw.1.data = true := by
    rw [hteq]
    exact (hasSub_iff t.data _).mpr hocc
  have hle := score_foldl_le_of_mem (lowerData (title ++ " " ++ abstract))
    autismTermWeights 0 tw htw hsub
  have hpos : (0:ℚ) < tw.2 := lt_of_lt_of_le (by decide : (0:ℚ) < w07) hw
  have hsc : calculate_relevance_score title abstract =
      if 0 < autismTermWeights.foldl
          (fun score tw =>
            if hasSub (lowerData (title ++ " " ++ abstract)) tw.1.data then max score tw.2
            else score) 0 then
        autismTermWeights.foldl
          (fun score tw =>
            if hasSub (lowerData (title ++ " " ++ abstract)) tw.1.data then max score tw.2
            else score) 0
      else half := rfl
  rw [hsc, if_pos (lt_of_lt_of_le hpos hle)]
  exact le_trans hw hle

theorem is_autism_related_iff (title abstract : String) :
    is_autism_related title abstract = true ↔
      ∃ t ∈ autism_terms, occursIn t.data (lowerData (title ++ " " ++ abstract)) := by
  simp only [is_autism_related, List.any_eq_true]
  constructor
  · rintro ⟨t, htm, hsub⟩
    exact ⟨t, htm, (hasSub_iff t.data _).mp hsub⟩
  · rintro ⟨t, htm, hocc⟩
    exact ⟨t, htm, (hasSub_iff t.data _).mpr hocc⟩

theorem score_ge_of_related (title abstract : String)
    (h : is_autism_related title abstract = true) :
    w07 ≤ calculate_relevance_score title abstract := by
  obtain ⟨t, htm, hocc⟩ := (is_autism_related_iff title abstract).mp h
  exact score_ge_of_term title abstract t htm hocc

theorem scholar_score_ge (t a : String)
    (h : is_autism_related (pySlice t 500) (pySlice a 2000) = true) :
    w07 ≤ calculate_relevance_score t a := by
  obtain ⟨term, htm, hocc⟩ := (is_autism_related_iff (pySlice t 500) (pySlice a 2000)).mp h
  rw [lowerCat_eq, lowerData_pySlice, lowerData_pySlice] at hocc
  rcases occursIn_append_split term.data _ _ hocc with
    hx | hy | ⟨k, hk0, hklen, ⟨s, hs⟩, ⟨e, he⟩⟩
  · refine score_ge_of_term t a term htm ?_
    rw [lowerCat_eq]
    exact occursIn_append_left term.data (lowerData t) (' ' :: lowerData a)
      (occursIn_take term.data 500 (lowerData t) hx)
  · obtain ⟨s, e, hse⟩ := hy
    cases s with
    | nil =>
      exfalso
      obtain ⟨c, cs, hcs⟩ := List.exists_cons_of_ne_nil (terms_ne_nil term htm)
      rw [List.nil_append, hcs] at hse
      injection hse with h1 _
      exact terms_head_not_space term htm (by rw [hcs, h1]; rfl)
    | cons c' s' =>
      injection hse with h1 h2
      refine score_ge_of_term t a term htm ?_
      rw [lowerCat_eq]
      exact occursIn_append_right term.data (lowerData t) (' ' :: lowerData a)
        (occursIn_append_right term.data [' '] (lowerData a)
          (occursIn_take term.data 2000 (lowerData a) ⟨s', e, h2⟩))
  · have hne : term.data.drop k ≠ [] := by
      intro hnil
      have := List.drop_eq_nil_iff.mp hnil
      omega
    obtain ⟨d, ds, hd⟩ := List.exists_cons_of_ne_nil hne
    rw [hd] at he
    injection he with h1 _
    have hhead : (term.data.drop k).head? = some ' ' := by
      rw [hd, h1]
      rfl
    have hpref := terms_space_split term htm k hklen hhead
    obtain ⟨u, hu⟩ := (isPrefixOf_exists "autism".data (term.data.take k)).mp hpref
    have hocc2 : occursIn "autism".data ((lowerData t).take 500) := by
      refine ⟨s, u, ?_⟩
      rw [List.append_assoc, hu]
      exact hs
    refine score_ge_of_term t a "autism" (by decide) ?_
    rw [lowerCat_eq]
    exact occursIn_append_left "autism".data (lowerData t) (' ' :: lowerData a)
      (occursIn_take "autism".data 500 (lowerData t) hocc2)

/-- C10: every paper leaving a SourceClient has `relevance_score ≥ 0.7`:
each filter term also carries a scorer weight of at least `0.7`, so the
scorer's `0.5` default is unreachable for filtered papers. For the
Scholar client the filter runs on the truncated title/abstract while the
stored score was computed on the untruncated strings; a term found in
the truncated text still forces a term (possibly just `"autism"`, when
`"autism spectrum disorder"` straddles the truncation boundary) in the
untruncated text, so the bound holds there too. -/
theorem sources_score_at_least (ars : List ArxivResult)
    (mrs : List MedlineRecord) (srs : List ScholarResult) (p : Paper) :
    (p ∈ fetch_arxiv_papers ars → 7/10 ≤ p.relevance_score) ∧
    (p ∈ fetch_pubmed_papers mrs → 7/10 ≤ p.relevance_score) ∧
    (p ∈ fetch_scholar_papers srs → 7/10 ≤ p.relevance_score) := by
  rw [show (7:ℚ)/10 = w07 from w07_eq.symm]
  refine ⟨?_, ?_, ?_⟩ <;> intro hp
  · rw [fetch_arxiv_papers, filter_papers, List.mem_filter] at hp
    obtain ⟨hmem, hrel⟩ := hp
    obtain ⟨r, _, rfl⟩ := List.mem_map.mp hmem
    exact score_ge_of_related r.title r.summary hrel
  · rw [fetch_pubmed_papers, filter_papers, List.mem_filter] at hp
    obtain ⟨hmem, hrel⟩ := hp
    rw [pubmed_collect] at hmem
    obtain ⟨r, _, rfl⟩ := List.mem_map.mp hmem
    exact score_ge_of_related (r.TI.getD "No title available")
      (r.AB.getD "No abstract available") hrel
  · rw [fetch_scholar_papers, filter_papers, List.mem_filter] at hp
    obtain ⟨hmem, hrel⟩ := hp
    rw [scholar_collect] at hmem
    obtain ⟨r, _, hmap⟩ := List.mem_filterMap.mp hmem
    obtain ⟨bib, _, hpe⟩ := Option.map_eq_some'.mp hmap
    subst hpe
    exact scholar_score_ge (bib.title.getD "No title available")
      (bib.abstract.getD "No abstract available") hrel

/-- Witness for `sources_score_at_least`: all three membership hypotheses
discharged on concrete raw records. -/
theorem sources_score_at_least_witness :
    7/10 ≤ (arxiv_paper ⟨"Asperger syndrome", "social", "u", "2019", ["B"]⟩).relevance_score ∧
    7/10 ≤ (pubmed_paper
      ⟨some "Neurodevelopmental outcomes", some "a study", some "2", some "2019",
        none⟩).relevance_score ∧
    7/10 ≤ (scholar_paper ⟨some ⟨some "Neurodivergent adults", some "x", some "2019", none⟩, none⟩
      ⟨some "Neurodivergent adults", some "x", some "2019", none⟩).relevance_score :=
  ⟨(sources_score_at_least [⟨"Asperger syndrome", "social", "u", "2019", ["B"]⟩] [] []
      (arxiv_paper ⟨"Asperger syndrome", "social", "u", "2019", ["B"]⟩)).1 (by decide),
   (sources_score_at_least []
      [⟨some "Neurodevelopmental outcomes", some "a study", some "2", some "2019", none⟩] []
      (pubmed_paper
        ⟨some "Neurodevelopmental outcomes", some "a study", some "2", some "2019",
          none⟩)).2.1 (by decide),
   (sources_score_at_least [] []
      [⟨some ⟨some "Neurodivergent adults", some "x", some "2019", none⟩, none⟩]
      (scholar_paper ⟨some ⟨some "Neurodivergent adults", some "x", some "2019", none⟩, none⟩
        ⟨some "Neurodivergent adults", some "x", some "2019", none⟩)).2.2 (by decide)⟩
